import Mathlib

/-!
Verification development for the SQLite write-side of the ratchet pipeline:
a shallow embedding of `util/sqlite.go` (`SQLiteInsertData`,
`sqliteInsertObjects`, `buildSQLiteInsertSQL`) and of the pipeline writer
stage (`SQLiteWriter.ProcessData`, `SQLReaderSQLiteWriter.ProcessData`),
together with theorems settling the specification's claims about them.

Modelling conventions:
- Go `interface{}` scalar values become `GoValue`; a Go
  `map[string]interface{}` becomes a key-unique association list `Record`
  (Go maps are unordered; every use below is order-insensitive because the
  code sorts the derived column list).
- The database handle becomes a `StoreOracle`: a pure oracle telling, for
  each prepared statement text and bound argument list, whether the
  prepare/execute interaction succeeds (`none`) or fails with an error
  message (`some e`).  Prepare, execute and the post-execute metadata
  calls (`LastInsertId`, `RowsAffected`) are collapsed into this single
  fallible interaction, since each of them makes `sqliteInsertObjects`
  return the error the same way.
- Executions are recorded as a trace of `StoreEvent`s in the order the Go
  code issues them (`MustBegin`, statement execution, `Commit`,
  `Rollback`), so temporal claims become claims about trace order.
-/

/-- A scalar SQL value as carried by Go's `interface{}` in this code:
string, integer, boolean, or nil/NULL. -/
inductive GoValue where
  | vint : Int → GoValue
  | vstr : String → GoValue
  | vbool : Bool → GoValue
  | vnull : GoValue
deriving DecidableEq, Repr

/-- A Go `map[string]interface{}` record: column name to value.  Keys are
assumed unique, as in a Go map. -/
abbrev Record := List (String × GoValue)

/-- Byte-wise lexicographic comparison of character lists, the order used
by Go's `sort.Strings` (for the ASCII column names at issue, code-point
order and byte order coincide). -/
def charsLe : List Char → List Char → Bool
  | [], _ => true
  | _ :: _, [] => false
  | a :: as, b :: bs =>
    if a.toNat < b.toNat then true
    else if b.toNat < a.toNat then false
    else charsLe as bs

/-- Lexicographic order on strings via their character data. -/
def strLeb (a b : String) : Bool := charsLe a.data b.data

/-- The ordering relation used for `sort.Strings`. -/
def StrLe (a b : String) : Prop := strLeb a b = true

instance : DecidableRel StrLe := fun a b => instDecidableEqBool (strLeb a b) true

theorem charsLe_cons (a b : Char) (as bs : List Char) :
    charsLe (a :: as) (b :: bs) =
      if a.toNat < b.toNat then true
      else if b.toNat < a.toNat then false
      else charsLe as bs := rfl

theorem charsLe_total : ∀ as bs : List Char, charsLe as bs = true ∨ charsLe bs as = true
  | [], _ => Or.inl rfl
  | _ :: _, [] => Or.inr rfl
  | a :: as, b :: bs => by
    rcases Nat.lt_trichotomy a.toNat b.toNat with h | h | h
    · exact Or.inl (by simp [charsLe_cons, h])
    · rcases charsLe_total as bs with ih | ih
      · exact Or.inl (by simp [charsLe_cons, h, Nat.lt_irrefl, ih])
      · exact Or.inr (by simp [charsLe_cons, h, Nat.lt_irrefl, ih])
    · exact Or.inr (by simp [charsLe_cons, h])

theorem charsLe_trans : ∀ as bs cs : List Char,
    charsLe as bs = true → charsLe bs cs = true → charsLe as cs = true
  | [], _, _, _, _ => rfl
  | _ :: _, [], _, h1, _ => by cases h1
  | _ :: _, _ :: _, [], _, h2 => by cases h2
  | a :: as, b :: bs, c :: cs, h1, h2 => by
    rw [charsLe_cons] at h1 h2 ⊢
    by_cases hab : a.toNat < b.toNat
    · by_cases hbc : b.toNat < c.toNat
      · simp [Nat.lt_trans hab hbc]
      · by_cases hcb : c.toNat < b.toNat
        · simp [hbc, hcb] at h2
        · have hbc' : b.toNat = c.toNat := Nat.le_antisymm (Nat.le_of_not_lt hcb) (Nat.le_of_not_lt hbc)
          simp [hbc' ▸ hab]
    · by_cases hba : b.toNat < a.toNat
      · simp [hab, hba] at h1
      · have hab' : a.toNat = b.toNat := Nat.le_antisymm (Nat.le_of_not_lt hba) (Nat.le_of_not_lt hab)
        simp [hab, hba] at h1
        by_cases hbc : b.toNat < c.toNat
        · simp [hab' ▸ hbc]
        · by_cases hcb : c.toNat < b.toNat
          · simp [hbc, hcb] at h2
          · simp [hbc, hcb] at h2
            simp [hab' ▸ hbc, hab' ▸ hcb, charsLe_trans as bs cs h1 h2]

theorem charsLe_antisymm : ∀ as bs : List Char,
    charsLe as bs = true → charsLe bs as = true → as = bs
  | [], [], _, _ => rfl
  | [], _ :: _, _, h2 => by cases h2
  | _ :: _, [], h1, _ => by cases h1
  | a :: as, b :: bs, h1, h2 => by
    rw [charsLe_cons] at h1 h2
    rcases Nat.lt_trichotomy a.toNat b.toNat with h | h | h
    · simp [h, Nat.lt_asymm h] at h2
    · have hc : a = b := Char.ext (UInt32.ext h)
      simp [h, Nat.lt_irrefl] at h1 h2
      rw [hc, charsLe_antisymm as bs h1 h2]
    · simp [h, Nat.lt_asymm h] at h1

instance : IsTotal String StrLe :=
  ⟨fun a b => charsLe_total a.data b.data⟩

instance : IsTrans String StrLe :=
  ⟨fun a b c => charsLe_trans a.data b.data c.data⟩

instance : IsAntisymm String StrLe :=
  ⟨fun a b h1 h2 => String.ext (charsLe_antisymm a.data b.data h1 h2)⟩

/-- The keys of a record, in association-list order. -/
def recordKeys (r : Record) : List String := r.map Prod.fst

/-- All keys appearing in any record of the batch, with repetitions. -/
def allKeys (objects : List Record) : List String := objects.flatMap recordKeys

/-- Modelled from the spec: `util.sortedColumns` is called by
`buildSQLiteInsertSQL` but its definition is not among the provided source
files (it lives elsewhere in the `util` package).  The spec's words:
"take the union of all keys appearing in any record of the batch; ...
sort the result lexicographically by byte value", with no dependence on
map iteration order. -/
def sortedColumns (objects : List Record) : List String :=
  List.insertionSort StrLe (allKeys objects).dedup

/-- The column list computed by `buildSQLiteInsertSQL` (its lines up to
`sort.Strings(cols)`): start from `sortedColumns`, append every
`preservedFields` entry not found in the `colMap` built from that initial
list (the Go code never adds appended entries to `colMap`), then sort. -/
def buildCols (objects : List Record) (preservedFields : List String) : List String :=
  let cols := sortedColumns objects
  List.insertionSort StrLe (cols ++ preservedFields.filter (fun pf => ! decide (pf ∈ cols)))

/-- The ColumnSet exactly as the spec's sentence words it: "sorted(union of
keys across all records in the batch ∪ preservedFields)", a set union with
each distinct name once.  Kept separate from `buildCols` (which follows
the source) so the two can be compared. -/
def specColumnSet (objects : List Record) (preservedFields : List String) : List String :=
  List.insertionSort StrLe (allKeys objects ++ preservedFields).dedup

/-- The `WHERE` clause of a preserved column's correlated subquery:
`pk1 = ?` parts joined by `"AND "` (the Go code inserts no space before
`AND`). -/
def pkWhereClause (primaryKeys : List String) : String :=
  String.intercalate "AND " (primaryKeys.map (fun pk => pk ++ " = ?"))

/-- One column's placeholder inside the row-group template, from the
per-column branch of the `qs` loop in `buildSQLiteInsertSQL`. -/
def colPlaceholder (tableName : String) (onDupKeyUpdate : Bool)
    (primaryKeys preservedFields : List String) (c : String) : String :=
  if onDupKeyUpdate ∧ c ∈ preservedFields then
    "(SELECT " ++ c ++ " FROM " ++ tableName ++ " WHERE " ++ pkWhereClause primaryKeys ++ ")"
  else "?"

/-- The entries the same loop appends to `valCols` for one column: the
primary-key columns for a preserved column's subquery, the column itself
otherwise. -/
def colArgSlots (onDupKeyUpdate : Bool) (primaryKeys preservedFields : List String)
    (c : String) : List String :=
  if onDupKeyUpdate ∧ c ∈ preservedFields then primaryKeys else [c]

/-- The `(?,?)`-style row-group template `qs`. -/
def rowGroup (tableName : String) (onDupKeyUpdate : Bool)
    (primaryKeys preservedFields cols : List String) : String :=
  "(" ++ String.intercalate "," (cols.map (colPlaceholder tableName onDupKeyUpdate primaryKeys preservedFields)) ++ ")"

/-- The full `valCols` list of `buildSQLiteInsertSQL`. -/
def valColsOf (onDupKeyUpdate : Bool) (primaryKeys preservedFields cols : List String) :
    List String :=
  cols.flatMap (colArgSlots onDupKeyUpdate primaryKeys preservedFields)

/-- The statement text before the row groups:
`INSERT [OR REPLACE] INTO <table>(<cols>) VALUES`. -/
def insertPrefix (tableName : String) (onDupKeyUpdate : Bool) (cols : List String) : String :=
  if onDupKeyUpdate then
    "INSERT OR REPLACE INTO " ++ tableName ++ "(" ++ String.intercalate "," cols ++ ") VALUES"
  else
    "INSERT INTO " ++ tableName ++ "(" ++ String.intercalate "," cols ++ ") VALUES"

/-- The inner loop of the `vals` construction: one record's bound values,
in `valCols` order.  A present value is bound as-is; an absent one binds
NULL unless the column is a primary key, in which case the whole build
fails with the `Missing value for primary key` error (first such column
wins, as in the sequential Go loop). -/
def valsForObj (primaryKeys : List String) (obj : Record) :
    List String → Except String (List GoValue)
  | [] => Except.ok []
  | c :: rest =>
    match obj.lookup c with
    | some v => Except.map (fun vs => v :: vs) (valsForObj primaryKeys obj rest)
    | none =>
      if c ∈ primaryKeys then Except.error ("Missing value for primary key: " ++ c)
      else Except.map (fun vs => GoValue.vnull :: vs) (valsForObj primaryKeys obj rest)

/-- The outer loop of the `vals` construction, over records in batch
order; the first failing record aborts the build. -/
def buildVals (primaryKeys valCols : List String) : List Record → Except String (List GoValue)
  | [] => Except.ok []
  | obj :: rest =>
    match valsForObj primaryKeys obj valCols with
    | Except.error e => Except.error e
    | Except.ok v =>
      match buildVals primaryKeys valCols rest with
      | Except.error e => Except.error e
      | Except.ok vs => Except.ok (v ++ vs)

/-- Embedding of `buildSQLiteInsertSQL` (util/sqlite.go): compiles one
chunk into (SQL text, flattened argument list), or fails.  The Go
function's named results also hold the SQL text and a partial argument
list on the error path, but no caller reads them when `err != nil`, so
the error alone is returned here. -/
def buildSQLiteInsertSQL (objects : List Record) (tableName : String)
    (onDupKeyUpdate : Bool) (primaryKeys preservedFields : List String) :
    Except String (String × List GoValue) :=
  let cols := buildCols objects preservedFields
  let qs := rowGroup tableName onDupKeyUpdate primaryKeys preservedFields cols
  let insertSQL := insertPrefix tableName onDupKeyUpdate cols ++
    String.intercalate "," (objects.map (fun _ => qs))
  match buildVals primaryKeys (valColsOf onDupKeyUpdate primaryKeys preservedFields cols) objects with
  | Except.error e => Except.error e
  | Except.ok vals => Except.ok (insertSQL, vals)

/-- One store interaction as issued by the Go code, in issue order. -/
inductive StoreEvent where
  | begin : StoreEvent
  | exec : String → List GoValue → StoreEvent
  | commit : StoreEvent
  | rollback : StoreEvent
deriving DecidableEq, Repr

/-- The store collaborator: for a statement text and argument list,
`none` means the prepare/execute interaction succeeds, `some e` that it
fails with error `e`. -/
def StoreOracle := String → List GoValue → Option String

/-- A store on which every statement succeeds. -/
def dbAlwaysOk : StoreOracle := fun _ _ => none

/-- Embedding of `sqliteInsertObjects` (util/sqlite.go): compile one
chunk, and if compilation succeeds, run the statement against the store;
returns the issued store events and the error, if any. -/
def sqliteInsertObjects (db : StoreOracle) (objects : List Record) (tableName : String)
    (onDupKeyUpdate : Bool) (primaryKeys preservedFields : List String) :
    List StoreEvent × Option String :=
  match buildSQLiteInsertSQL objects tableName onDupKeyUpdate primaryKeys preservedFields with
  | Except.error e => ([], some e)
  | Except.ok (sql, vals) => ([StoreEvent.exec sql vals], db sql vals)

/-- Helper for `goChunks`; the fuel argument (instantiated with the list
length) only forces structural termination and is never exhausted when
the chunk size is at least 1. -/
def goChunksAux (bs : Nat) : Nat → List Record → List (List Record)
  | _, [] => []
  | 0, _ => []
  | Nat.succ fuel, l => l.take bs :: goChunksAux bs fuel (l.drop bs)

/-- The slices `objects[i:min(i+batchSize, len)]` visited by the Go loop
`for i := 0; i < len(objects); i += batchSize` (only reached with
`batchSize > 0`). -/
def goChunks (bs : Nat) (objects : List Record) : List (List Record) :=
  goChunksAux bs objects.length objects

/-- The chunk loop body of `SQLiteInsertData`: run each chunk in turn; on
the first failing chunk append the `Rollback` event and stop. -/
def runChunks (db : StoreOracle) (tableName : String) (onDupKeyUpdate : Bool)
    (primaryKeys preservedFields : List String) :
    List (List Record) → List StoreEvent × Option String
  | [] => ([], none)
  | chunk :: rest =>
    let r0 := sqliteInsertObjects db chunk tableName onDupKeyUpdate primaryKeys preservedFields
    match r0.2 with
    | some e => (r0.1 ++ [StoreEvent.rollback], some e)
    | none =>
      let r := runChunks db tableName onDupKeyUpdate primaryKeys preservedFields rest
      (r0.1 ++ r.1, r.2)

/-- Embedding of `SQLiteInsertData` (util/sqlite.go).  The `d` parameter
carries the result of `data.ObjectsFromJSON(d)` (that normalizer lives in
the external `data` package; per the spec it yields the ordered records
or a parse error).  The returned pair is the issued store-event trace and
the returned error.  Faithful to the source, including the `batchSize <= 0`
path, which calls `tx.Commit()` and only then executes the single
whole-batch statement. -/
def SQLiteInsertData (db : StoreOracle) (d : Except String (List Record))
    (tableName : String) (onDupKeyUpdate : Bool)
    (primaryKeys preservedFields : List String) (batchSize : Int) :
    List StoreEvent × Option String :=
  if preservedFields.length > 0 ∧ primaryKeys.length = 0 then
    ([], some "primaryKeys required if preservedFields specified")
  else
    match d with
    | Except.error e => ([], some e)
    | Except.ok objects =>
      if batchSize > 0 then
        let r := runChunks db tableName onDupKeyUpdate primaryKeys preservedFields
          (goChunks batchSize.toNat objects)
        match r.2 with
        | some e => (StoreEvent.begin :: r.1, some e)
        | none => (StoreEvent.begin :: (r.1 ++ [StoreEvent.commit]), none)
      else
        let r := sqliteInsertObjects db objects tableName onDupKeyUpdate primaryKeys preservedFields
        (StoreEvent.begin :: StoreEvent.commit :: r.1, r.2)

/-- Helper for `committedWrites`: scan the trace with a flag telling
whether a transaction is open and the writes pending in it. -/
def committedWritesAux : List StoreEvent → Bool → List (String × List GoValue) →
    List (String × List GoValue)
  | [], _, _ => []
  | StoreEvent.begin :: rest, _, _ => committedWritesAux rest true []
  | StoreEvent.exec s v :: rest, true, pending => committedWritesAux rest true (pending ++ [(s, v)])
  | StoreEvent.exec _ _ :: rest, false, pending => committedWritesAux rest false pending
  | StoreEvent.commit :: rest, true, pending => pending ++ committedWritesAux rest false []
  | StoreEvent.commit :: rest, false, _ => committedWritesAux rest false []
  | StoreEvent.rollback :: rest, _, _ => committedWritesAux rest false []

/-- The writes a trace actually persists under the collaborator's
transactional semantics: a statement's write survives exactly when it was
issued inside an open transaction that later commits; rolled-back writes
and statements issued on a closed transaction handle (which the driver
rejects) persist nothing. -/
def committedWrites (evs : List StoreEvent) : List (String × List GoValue) :=
  committedWritesAux evs false []


deriving instance DecidableEq for Except

/-- The routed-envelope struct `SQLWriterData` the writer first tries to
decode each item into.  `insertData = none` models a nil `InsertData`
field; `insertData = some p` models a non-nil nested payload whose
normalization (the external `data.NewJSON` then `data.ObjectsFromJSON`
round trip) yields `p`. -/
structure SQLWriterData where
  tableName : String
  insertData : Option (Except String (List Record))
deriving DecidableEq, Repr

/-- One pipeline item as the writer stage sees it, carrying the outcomes
of the external `data` package's decoders on it: `parsedWriterData` is
the result of `data.ParseJSON(d, &wd)` (`none` = decode error), and
`objects` is the result of `data.ObjectsFromJSON(d)` on the item itself. -/
structure DataItem where
  parsedWriterData : Option SQLWriterData
  objects : Except String (List Record)
deriving DecidableEq, Repr

/-- The `SQLiteWriter` processor's configuration fields (processors file);
the `writeDB` handle is passed separately as the `StoreOracle`, and
`ConcurrencyLevel` plays no role in per-item processing. -/
structure SQLiteWriter where
  tableName : String
  onDupKeyUpdate : Bool
  primaryKeys : List String
  preservedFields : List String
  batchSize : Int
deriving DecidableEq, Repr

/-- What one `ProcessData` call emits: the items sent on `outputChan`,
the errors pushed on `killChan` (by `util.KillPipelineIfErr`, which per
the spec pushes an error onto the shared cancellation channel iff the
error is non-nil), and the store events issued. -/
structure StageOutput where
  outputs : List DataItem
  kills : List String
  trace : List StoreEvent
deriving DecidableEq, Repr

/-- The kill-channel pushes of `util.KillPipelineIfErr` for one error
value: one push when non-nil, none otherwise. -/
def killList : Option String → List String
  | some e => [e]
  | none => []

/-- The `else` branch of `SQLiteWriter.ProcessData` ("normal data
scenario"): insert the item itself into the statically configured
table. -/
def normalScenario (db : StoreOracle) (s : SQLiteWriter) (d : DataItem) : StageOutput :=
  let r := SQLiteInsertData db d.objects s.tableName s.onDupKeyUpdate s.primaryKeys
    s.preservedFields s.batchSize
  { outputs := [], kills := killList r.2, trace := r.1 }

/-- Embedding of `SQLiteWriter.ProcessData` (processors file).  The Go
condition `err == nil && wd.TableName != "" && wd.InsertData != nil`
selects the routed "SQLWriterData scenario"; every other decode outcome
falls through to the normal scenario.  Note the function never sends on
`outputChan`. -/
def SQLiteWriter.ProcessData (db : StoreOracle) (s : SQLiteWriter) (d : DataItem) : StageOutput :=
  match d.parsedWriterData with
  | some wd =>
    match wd.insertData with
    | some dd =>
      if wd.tableName = "" then normalScenario db s d
      else
        let r := SQLiteInsertData db dd wd.tableName s.onDupKeyUpdate s.primaryKeys
          s.preservedFields s.batchSize
        { outputs := [], kills := killList r.2, trace := r.1 }
    | none => normalScenario db s d
  | none => normalScenario db s d

/-- Embedding of `SQLReaderSQLiteWriter.ProcessData` (processors file).
Modelled from the spec where it leans on the reader: `ForEachQueryData`
belongs to the external `SQLReader` and, per the spec, yields zero or
more query-result items per input item; the `queryResults` parameter
stands for that sequence.  For each result item the composite invokes
the writer's `ProcessData` and then sends the item itself on
`outputChan`. -/
def SQLReaderSQLiteWriter.ProcessData (db : StoreOracle) (s : SQLiteWriter) :
    List DataItem → StageOutput
  | [] => { outputs := [], kills := [], trace := [] }
  | d :: rest =>
    let w := SQLiteWriter.ProcessData db s d
    let r := SQLReaderSQLiteWriter.ProcessData db s rest
    { outputs := w.outputs ++ d :: r.outputs, kills := w.kills ++ r.kills,
      trace := w.trace ++ r.trace }

/-- A five-record batch with a single column `a`, rows 1..5. -/
def fiveRecords : List Record :=
  [[("a", GoValue.vint 1)], [("a", GoValue.vint 2)], [("a", GoValue.vint 3)],
   [("a", GoValue.vint 4)], [("a", GoValue.vint 5)]]

/-- A store that fails exactly the statement whose bound arguments are
`[3, 4]` (the second chunk of `fiveRecords` at chunk size 2) and accepts
everything else. -/
def dbBoom34 : StoreOracle :=
  fun _ v => if v = [GoValue.vint 3, GoValue.vint 4] then some "boom" else none

/-- A writer configured statically for table `t`, insert-only, default
batch size 100. -/
def cfgT : SQLiteWriter :=
  { tableName := "t", onDupKeyUpdate := false, primaryKeys := [],
    preservedFields := [], batchSize := 100 }

/-- A writer configured statically for table `conf`, insert-only, default
batch size 100. -/
def cfgConf : SQLiteWriter :=
  { tableName := "conf", onDupKeyUpdate := false, primaryKeys := [],
    preservedFields := [], batchSize := 100 }

/-- An item that is not a routed envelope and normalizes to the single
record `{a: 1}`. -/
def itemPlain : DataItem :=
  { parsedWriterData := none, objects := Except.ok [[("a", GoValue.vint 1)]] }

/-- An item that decodes as a routed envelope whose table name is empty
(its nested payload is present), and which, read as a plain payload,
normalizes to the single record `{z: 9}`. -/
def itemDegenerate : DataItem :=
  { parsedWriterData := some { tableName := "", insertData := some (Except.ok [[("z", GoValue.vint 9)]]) },
    objects := Except.ok [[("z", GoValue.vint 9)]] }

/-- The two-record batch `[{a:1,b:2},{a:3}]` of the spec's insert-only
end-to-end example. -/
def c9batch : List Record :=
  [[("a", GoValue.vint 1), ("b", GoValue.vint 2)], [("a", GoValue.vint 3)]]

/-- C1: the claim says that for chunk size 0 the commit still happens only
after the single whole-batch statement executes, never before it.  The
code does the opposite: on the `batchSize <= 0` path `SQLiteInsertData`
calls `tx.Commit()` and only then executes the whole-batch statement, as
this evaluation of the embedding shows — the trace has `commit` strictly
before the `exec`. -/
theorem sqliteInsertData_unbatched_commits_before_exec :
    SQLiteInsertData dbAlwaysOk (Except.ok [[("a", GoValue.vint 1)]]) "t" false [] [] 0 =
      ([StoreEvent.begin, StoreEvent.commit,
        StoreEvent.exec "INSERT INTO t(a) VALUES(?)" [GoValue.vint 1]], none) := rfl

/-- C4: the claim says a batch with a record missing a consulted
primary-key value yields `MissingKeyError`, no statement executed, the
enclosing transaction rolled back, zero rows written.  At chunk size 0
the code returns the `MissingKeyError` and executes nothing, but the
enclosing transaction has already been committed (empty) before
compilation was attempted, so no rollback ever happens: the trace is
`[begin, commit]` with no `rollback` event. -/
theorem missing_key_unbatched_no_rollback :
    SQLiteInsertData dbAlwaysOk (Except.ok [[("a", GoValue.vint 1)]]) "t" true ["id"] ["p"] 0 =
      ([StoreEvent.begin, StoreEvent.commit], some "Missing value for primary key: id") := rfl

/-- C9 counterexample: on the batch `[{a:1,b:2},{a:3}]` the compiled SQL
is not the claimed text `INSERT INTO t(a,b) VALUES (?,?),(?,?)` — the
code writes no space between `VALUES` and the first row group. -/
theorem insertOnly_example_counterexample :
    buildSQLiteInsertSQL c9batch "t" false [] [] ≠
      Except.ok ("INSERT INTO t(a,b) VALUES (?,?),(?,?)",
        [GoValue.vint 1, GoValue.vint 2, GoValue.vint 3, GoValue.vnull]) := by
  decide

/-- C9 amended: for the insert-only policy, table `t` and batch
`[{a:1,b:2},{a:3}]`, `buildSQLiteInsertSQL` produces exactly the SQL text
`INSERT INTO t(a,b) VALUES(?,?),(?,?)` (no space after `VALUES`) and
exactly the argument list `[1, 2, 3, null]`. -/
theorem insertOnly_example_exact :
    buildSQLiteInsertSQL c9batch "t" false [] [] =
      Except.ok ("INSERT INTO t(a,b) VALUES(?,?),(?,?)",
        [GoValue.vint 1, GoValue.vint 2, GoValue.vint 3, GoValue.vnull]) := rfl

/-- C6 counterexample: with batch `[{a:1}]` and preservedFields
`["x","x"]`, the compiled column list is `["a","x","x"]` — the duplicated
preserved name appears twice (the Go code checks membership against a
`colMap` it never extends), so the list is not the set-like sorted union
the claim describes. -/
theorem buildCols_duplicate_preserved_counterexample :
    buildCols [[("a", GoValue.vint 1)]] ["x", "x"] = ["a", "x", "x"]
    ∧ List.count "x" (buildCols [[("a", GoValue.vint 1)]] ["x", "x"]) = 2
    ∧ buildCols [[("a", GoValue.vint 1)]] ["x", "x"] ≠
        specColumnSet [[("a", GoValue.vint 1)]] ["x", "x"] := by
  refine ⟨rfl, rfl, ?_⟩
  decide

/-- C2 counterexample: on an item whose normalization, compilation and
execution all succeed (no error is pushed on the kill channel and the
insert commits), `SQLiteWriter.ProcessData` sends nothing on the output
channel — the stage is a sink, not pass-through. -/
theorem sqliteWriter_sink_counterexample :
    (SQLiteWriter.ProcessData dbAlwaysOk cfgT itemPlain).kills = []
    ∧ (SQLiteWriter.ProcessData dbAlwaysOk cfgT itemPlain).trace =
        [StoreEvent.begin, StoreEvent.exec "INSERT INTO t(a) VALUES(?)" [GoValue.vint 1],
         StoreEvent.commit]
    ∧ (SQLiteWriter.ProcessData dbAlwaysOk cfgT itemPlain).outputs = [] :=
  ⟨rfl, rfl, rfl⟩

/-- C3 counterexample: an item that decodes as a routed envelope with an
empty table name is not failed with a `ParseError`; the writer silently
falls into the normal scenario and writes the item itself as a plain
batch to the statically configured table `conf` — no kill-channel push,
and the committed statement targets `conf`. -/
theorem degenerate_envelope_counterexample :
    (SQLiteWriter.ProcessData dbAlwaysOk cfgConf itemDegenerate).kills = []
    ∧ (SQLiteWriter.ProcessData dbAlwaysOk cfgConf itemDegenerate).trace =
        [StoreEvent.begin, StoreEvent.exec "INSERT INTO conf(z) VALUES(?)" [GoValue.vint 9],
         StoreEvent.commit] :=
  ⟨rfl, rfl⟩

/-- C10: with `preservedFields` non-empty and `primaryKeys` empty,
`SQLiteInsertData` returns the `ConfigError` before any store
interaction — the event trace is empty, so no transaction is begun and
no statement is prepared or executed, and no record is processed. -/
theorem configError_before_store (db : StoreOracle) (d : Except String (List Record))
    (t : String) (onDup : Bool) (pks pf : List String) (bs : Int)
    (hpf : pf ≠ []) (hpk : pks = []) :
    SQLiteInsertData db d t onDup pks pf bs =
      ([], some "primaryKeys required if preservedFields specified") := by
  have h : pf.length > 0 ∧ pks.length = 0 := ⟨List.length_pos.mpr hpf, by rw [hpk]; rfl⟩
  unfold SQLiteInsertData
  rw [if_pos h]

/-- Witness for `configError_before_store` at a concrete input. -/
theorem configError_before_store_witness :
    (["p"] : List String) ≠ []
    ∧ SQLiteInsertData dbAlwaysOk (Except.ok [[("a", GoValue.vint 1)]]) "t" true [] ["p"] 100 =
        ([], some "primaryKeys required if preservedFields specified") :=
  ⟨by decide,
   configError_before_store dbAlwaysOk (Except.ok [[("a", GoValue.vint 1)]]) "t" true [] ["p"]
     100 (by decide) rfl⟩

/-- Every `SQLiteWriter.ProcessData` call sends nothing on the output
channel, whichever branch it takes. -/
theorem sqliteWriter_processData_outputs_nil (db : StoreOracle) (s : SQLiteWriter)
    (d : DataItem) : (SQLiteWriter.ProcessData db s d).outputs = [] := by
  obtain ⟨pwd, objs⟩ := d
  unfold SQLiteWriter.ProcessData
  rcases pwd with _ | wd
  · rfl
  · rcases wd with ⟨tn, _ | dd⟩
    · rfl
    · by_cases ht : tn = ""
      · simp only [ht, if_pos]
        rfl
      · simp only [if_neg ht]

/-- C2 amended: `SQLiteWriter.ProcessData` itself never sends on the
output channel (it is a sink); forwarding the original, unmodified item
downstream is done by the composite `SQLReaderSQLiteWriter.ProcessData`,
which sends each query-result item itself on the output channel after
running the writer on it — its outputs are exactly the input items, in
order. -/
theorem sqlReaderSQLiteWriter_forwards_items (db : StoreOracle) (s : SQLiteWriter)
    (items : List DataItem) :
    (SQLReaderSQLiteWriter.ProcessData db s items).outputs = items := by
  induction items with
  | nil => rfl
  | cons d rest ih =>
    show (SQLiteWriter.ProcessData db s d).outputs ++
      d :: (SQLReaderSQLiteWriter.ProcessData db s rest).outputs = d :: rest
    rw [sqliteWriter_processData_outputs_nil, ih]
    rfl

/-- C3 amended: when an item decodes as a routed envelope whose table
name is empty or whose nested payload is absent, the writer does not
fail it with a `ParseError`; it falls through to the normal scenario and
writes the item itself as a plain batch to the statically configured
table. -/
theorem degenerate_envelope_normal_scenario (db : StoreOracle) (s : SQLiteWriter)
    (d : DataItem) (wd : SQLWriterData)
    (hp : d.parsedWriterData = some wd)
    (hdeg : wd.tableName = "" ∨ wd.insertData = none) :
    SQLiteWriter.ProcessData db s d = normalScenario db s d
    ∧ (SQLiteWriter.ProcessData db s d).trace =
        (SQLiteInsertData db d.objects s.tableName s.onDupKeyUpdate s.primaryKeys
          s.preservedFields s.batchSize).1 := by
  have hmain : SQLiteWriter.ProcessData db s d = normalScenario db s d := by
    unfold SQLiteWriter.ProcessData
    rcases wd with ⟨tn, idd⟩
    rcases idd with _ | dd
    · rw [hp]
    · rcases hdeg with ht | hn
      · subst ht
        rw [hp]
        rfl
      · cases hn
  refine ⟨hmain, ?_⟩
  rw [hmain]
  rfl

/-- Witness for `degenerate_envelope_normal_scenario` at a concrete
input. -/
theorem degenerate_envelope_normal_scenario_witness :
    itemDegenerate.parsedWriterData =
      some { tableName := "", insertData := some (Except.ok [[("z", GoValue.vint 9)]]) }
    ∧ SQLiteWriter.ProcessData dbAlwaysOk cfgConf itemDegenerate =
        normalScenario dbAlwaysOk cfgConf itemDegenerate :=
  ⟨rfl,
   (degenerate_envelope_normal_scenario dbAlwaysOk cfgConf itemDegenerate
     { tableName := "", insertData := some (Except.ok [[("z", GoValue.vint 9)]]) }
     rfl (Or.inl rfl)).1⟩

/-- C5: a batch of 5 records with batchSize = 2 is compiled and executed
as exactly 3 chunk statements of sizes 2, 2, 1, in input order, inside
the single enclosing transaction of the trace; when all chunks succeed
the commit comes once, after the last chunk; when the 2nd chunk fails,
the transaction is rolled back (so the committed writes of the trace are
empty — the 1st chunk's rows included) and the 3rd chunk is never
attempted. -/
theorem chunking_five_records (db : StoreOracle) (o1 o2 o3 o4 o5 : Record)
    (t : String) (onDup : Bool) (pks pf : List String)
    (hguard : ¬(pf.length > 0 ∧ pks.length = 0))
    (s1 s2 s3 : String) (v1 v2 v3 : List GoValue)
    (h1 : buildSQLiteInsertSQL [o1, o2] t onDup pks pf = Except.ok (s1, v1))
    (h2 : buildSQLiteInsertSQL [o3, o4] t onDup pks pf = Except.ok (s2, v2))
    (h3 : buildSQLiteInsertSQL [o5] t onDup pks pf = Except.ok (s3, v3)) :
    goChunks (Int.toNat 2) [o1, o2, o3, o4, o5] = [[o1, o2], [o3, o4], [o5]]
    ∧ (db s1 v1 = none → db s2 v2 = none → db s3 v3 = none →
        SQLiteInsertData db (Except.ok [o1, o2, o3, o4, o5]) t onDup pks pf 2 =
          ([StoreEvent.begin, StoreEvent.exec s1 v1, StoreEvent.exec s2 v2,
            StoreEvent.exec s3 v3, StoreEvent.commit], none))
    ∧ (∀ e, db s1 v1 = none → db s2 v2 = some e →
        SQLiteInsertData db (Except.ok [o1, o2, o3, o4, o5]) t onDup pks pf 2 =
          ([StoreEvent.begin, StoreEvent.exec s1 v1, StoreEvent.exec s2 v2,
            StoreEvent.rollback], some e)
        ∧ committedWrites [StoreEvent.begin, StoreEvent.exec s1 v1, StoreEvent.exec s2 v2,
            StoreEvent.rollback] = []) := by
  refine ⟨rfl, ?_, ?_⟩
  · intro hd1 hd2 hd3
    unfold SQLiteInsertData
    rw [if_neg hguard]
    show (let r := runChunks db t onDup pks pf (goChunks (Int.toNat 2) [o1, o2, o3, o4, o5]);
      match r.2 with
      | some e => (StoreEvent.begin :: r.1, some e)
      | none => (StoreEvent.begin :: (r.1 ++ [StoreEvent.commit]), none)) = _
    simp only [goChunks, goChunksAux, List.take, List.drop, List.length_cons,
      List.length_nil, runChunks, sqliteInsertObjects, h1, h2, h3, hd1, hd2, hd3]
    rfl
  · intro e hd1 hd2
    refine ⟨?_, rfl⟩
    unfold SQLiteInsertData
    rw [if_neg hguard]
    show (let r := runChunks db t onDup pks pf (goChunks (Int.toNat 2) [o1, o2, o3, o4, o5]);
      match r.2 with
      | some e => (StoreEvent.begin :: r.1, some e)
      | none => (StoreEvent.begin :: (r.1 ++ [StoreEvent.commit]), none)) = _
    simp only [goChunks, goChunksAux, List.take, List.drop, List.length_cons,
      List.length_nil, runChunks, sqliteInsertObjects, h1, h2, hd1, hd2]
    rfl

/-- Witness for `chunking_five_records` on the concrete batch
`fiveRecords`, once with a store that accepts everything and once with a
store that fails exactly the second chunk. -/
theorem chunking_five_records_witness :
    SQLiteInsertData dbAlwaysOk (Except.ok fiveRecords) "t" false [] [] 2 =
      ([StoreEvent.begin,
        StoreEvent.exec "INSERT INTO t(a) VALUES(?),(?)" [GoValue.vint 1, GoValue.vint 2],
        StoreEvent.exec "INSERT INTO t(a) VALUES(?),(?)" [GoValue.vint 3, GoValue.vint 4],
        StoreEvent.exec "INSERT INTO t(a) VALUES(?)" [GoValue.vint 5],
        StoreEvent.commit], none)
    ∧ SQLiteInsertData dbBoom34 (Except.ok fiveRecords) "t" false [] [] 2 =
        ([StoreEvent.begin,
          StoreEvent.exec "INSERT INTO t(a) VALUES(?),(?)" [GoValue.vint 1, GoValue.vint 2],
          StoreEvent.exec "INSERT INTO t(a) VALUES(?),(?)" [GoValue.vint 3, GoValue.vint 4],
          StoreEvent.rollback], some "boom")
      ∧ committedWrites [StoreEvent.begin,
          StoreEvent.exec "INSERT INTO t(a) VALUES(?),(?)" [GoValue.vint 1, GoValue.vint 2],
          StoreEvent.exec "INSERT INTO t(a) VALUES(?),(?)" [GoValue.vint 3, GoValue.vint 4],
          StoreEvent.rollback] = [] :=
  ⟨(chunking_five_records dbAlwaysOk [("a", GoValue.vint 1)] [("a", GoValue.vint 2)]
      [("a", GoValue.vint 3)] [("a", GoValue.vint 4)] [("a", GoValue.vint 5)]
      "t" false [] [] (by decide)
      "INSERT INTO t(a) VALUES(?),(?)" "INSERT INTO t(a) VALUES(?),(?)"
      "INSERT INTO t(a) VALUES(?)"
      [GoValue.vint 1, GoValue.vint 2] [GoValue.vint 3, GoValue.vint 4] [GoValue.vint 5]
      rfl rfl rfl).2.1 rfl rfl rfl,
   (chunking_five_records dbBoom34 [("a", GoValue.vint 1)] [("a", GoValue.vint 2)]
      [("a", GoValue.vint 3)] [("a", GoValue.vint 4)] [("a", GoValue.vint 5)]
      "t" false [] [] (by decide)
      "INSERT INTO t(a) VALUES(?),(?)" "INSERT INTO t(a) VALUES(?),(?)"
      "INSERT INTO t(a) VALUES(?)"
      [GoValue.vint 1, GoValue.vint 2] [GoValue.vint 3, GoValue.vint 4] [GoValue.vint 5]
      rfl rfl rfl).2.2 "boom" rfl rfl⟩

/-- C7: in the compiled row template, under insert-only
(`onDupKeyUpdate = false`) every column's placeholder is a plain `?`
consuming that column's own value slot, and the whole generated SQL is
the `?`-only shape with no correlated subquery; under replace semantics
(`onDupKeyUpdate = true`) every preserved column's placeholder is the
correlated SELECT whose parameter slots are exactly the `primaryKeys`
(so it consumes `|primaryKeys|` parameters drawn from the record's
primary-key values), and every non-preserved column's placeholder is a
plain `?` consuming that column's value. -/
theorem placeholder_and_template_shapes (t : String) (pks pf : List String) (c : String)
    (objects : List Record) :
    colPlaceholder t false pks pf c = "?"
    ∧ colArgSlots false pks pf c = [c]
    ∧ (c ∈ pf →
        colPlaceholder t true pks pf c =
          "(SELECT " ++ c ++ " FROM " ++ t ++ " WHERE " ++ pkWhereClause pks ++ ")"
        ∧ colArgSlots true pks pf c = pks
        ∧ (colArgSlots true pks pf c).length = pks.length)
    ∧ (c ∉ pf → colPlaceholder t true pks pf c = "?" ∧ colArgSlots true pks pf c = [c])
    ∧ (∀ s vals, buildSQLiteInsertSQL objects t false pks pf = Except.ok (s, vals) →
        s = insertPrefix t false (buildCols objects pf) ++
          String.intercalate "," (objects.map (fun _ =>
            "(" ++ String.intercalate "," ((buildCols objects pf).map (fun _ => "?")) ++ ")"))) := by
  refine ⟨by simp [colPlaceholder], by simp [colArgSlots], ?_, ?_, ?_⟩
  · intro hc
    refine ⟨by simp [colPlaceholder, hc], by simp [colArgSlots, hc], by simp [colArgSlots, hc]⟩
  · intro hc
    exact ⟨by simp [colPlaceholder, hc], by simp [colArgSlots, hc]⟩
  · intro s vals h
    have hrow : rowGroup t false pks pf (buildCols objects pf) =
        "(" ++ String.intercalate "," ((buildCols objects pf).map (fun _ => "?")) ++ ")" := by
      unfold rowGroup
      have hfun : colPlaceholder t false pks pf = fun _ => "?" :=
        funext (fun x => by simp [colPlaceholder])
      rw [hfun]
    unfold buildSQLiteInsertSQL at h
    dsimp only at h
    cases hbv : buildVals pks (valColsOf false pks pf (buildCols objects pf)) objects with
    | error e =>
      rw [hbv] at h
      cases h
    | ok v =>
      rw [hbv] at h
      injection h with h'
      have hs : insertPrefix t false (buildCols objects pf) ++
          String.intercalate "," (objects.map
            (fun _ => rowGroup t false pks pf (buildCols objects pf))) = s :=
        congrArg Prod.fst h'
      rw [← hs, hrow]

/-- Witness for `placeholder_and_template_shapes` at concrete inputs,
discharging the membership and success hypotheses. -/
theorem placeholder_and_template_shapes_witness :
    colPlaceholder "t" true ["id", "num"] ["createdAt"] "createdAt" =
      "(SELECT createdAt FROM t WHERE id = ?AND num = ?)"
    ∧ colArgSlots true ["id", "num"] ["createdAt"] "createdAt" = ["id", "num"]
    ∧ colPlaceholder "t" true ["id", "num"] ["createdAt"] "name" = "?"
    ∧ "INSERT INTO t(a,b) VALUES(?,?),(?,?)" =
        insertPrefix "t" false (buildCols c9batch []) ++
          String.intercalate "," (c9batch.map (fun _ =>
            "(" ++ String.intercalate "," ((buildCols c9batch []).map (fun _ => "?")) ++ ")")) := by
  have happ := placeholder_and_template_shapes "t" ["id", "num"] ["createdAt"] "createdAt" c9batch
  have happ2 := placeholder_and_template_shapes "t" ["id", "num"] ["createdAt"] "name" c9batch
  have happ3 := placeholder_and_template_shapes "t" [] [] "a" c9batch
  refine ⟨?_, ?_, ?_, ?_⟩
  · exact ((happ.2.2.1 (by decide)).1).trans (by decide)
  · exact (happ.2.2.1 (by decide)).2.1
  · exact (happ2.2.2.2.1 (by decide)).1
  · exact happ3.2.2.2.2 "INSERT INTO t(a,b) VALUES(?,?),(?,?)"
      [GoValue.vint 1, GoValue.vint 2, GoValue.vint 3, GoValue.vnull] rfl

/-- On success, one record's value list is exactly the `valCols`-ordered
lookups, with NULL for an absent (necessarily non-primary-key) column. -/
theorem valsForObj_ok (pks : List String) (obj : Record) :
    ∀ l v, valsForObj pks obj l = Except.ok v →
      v = l.map (fun c => (obj.lookup c).getD GoValue.vnull)
  | [], v, h => by
    cases h
    rfl
  | c :: rest, v, h => by
    unfold valsForObj at h
    cases hl : obj.lookup c with
    | some w =>
      rw [hl] at h
      cases hr : valsForObj pks obj rest with
      | error e =>
        rw [hr] at h
        cases h
      | ok vs =>
        rw [hr] at h
        cases h
        simp [List.map_cons, hl, ← valsForObj_ok pks obj rest vs hr]
    | none =>
      rw [hl] at h
      by_cases hc : c ∈ pks
      · rw [if_pos hc] at h
        cases h
      · rw [if_neg hc] at h
        cases hr : valsForObj pks obj rest with
        | error e =>
          rw [hr] at h
          cases h
        | ok vs =>
          rw [hr] at h
          cases h
          simp [List.map_cons, hl, ← valsForObj_ok pks obj rest vs hr]

/-- On success, the whole argument list is the per-record concatenation
of those value lists, in batch order. -/
theorem buildVals_ok (pks vcols : List String) :
    ∀ objs v, buildVals pks vcols objs = Except.ok v →
      v = objs.flatMap (fun obj => vcols.map (fun c => (obj.lookup c).getD GoValue.vnull))
  | [], v, h => by
    cases h
    rfl
  | obj :: rest, v, h => by
    unfold buildVals at h
    cases ho : valsForObj pks obj vcols with
    | error e =>
      rw [ho] at h
      cases h
    | ok v1 =>
      rw [ho] at h
      cases hr : buildVals pks vcols rest with
      | error e =>
        rw [hr] at h
        cases h
      | ok vs =>
        rw [hr] at h
        cases h
        rw [List.flatMap_cons, ← valsForObj_ok pks obj vcols v1 ho,
          ← buildVals_ok pks vcols rest vs hr]

/-- Summing a constant over a list multiplies it by the length. -/
theorem sum_map_const {α : Type} (l : List α) (k : Nat) :
    (List.map (fun _ => k) l).sum = l.length * k := by
  induction l with
  | nil => simp
  | cons a rest ih =>
    simp [List.map_cons, List.sum_cons, ih, List.length_cons, Nat.succ_mul, Nat.add_comm]

/-- C8: whenever `buildSQLiteInsertSQL` compiles a batch without error,
the argument list it produces is the concatenation, per record in batch
order, of each column's bound argument slot(s) in ColumnSet order (NULL
standing in for a non-primary-key column absent from a record), and its
length is `(#rows) x (sum over columns of 1 for a normal column and
|primaryKeys| for a column preserved under replace semantics)`. -/
theorem argument_list_shape (objects : List Record) (t : String) (onDup : Bool)
    (pks pf : List String) (s : String) (vals : List GoValue)
    (h : buildSQLiteInsertSQL objects t onDup pks pf = Except.ok (s, vals)) :
    vals = objects.flatMap (fun obj =>
        (valColsOf onDup pks pf (buildCols objects pf)).map
          (fun c => (obj.lookup c).getD GoValue.vnull))
    ∧ vals.length = objects.length *
        ((buildCols objects pf).map
          (fun c => if onDup ∧ c ∈ pf then pks.length else 1)).sum := by
  unfold buildSQLiteInsertSQL at h
  dsimp only at h
  cases hbv : buildVals pks (valColsOf onDup pks pf (buildCols objects pf)) objects with
  | error e =>
    rw [hbv] at h
    cases h
  | ok v =>
    rw [hbv] at h
    injection h with h'
    have hv : v = vals := congrArg Prod.snd h'
    have hflat := buildVals_ok pks (valColsOf onDup pks pf (buildCols objects pf)) objects v hbv
    rw [← hv]
    refine ⟨hflat, ?_⟩
    have hvc : (valColsOf onDup pks pf (buildCols objects pf)).length =
        ((buildCols objects pf).map
          (fun c => if onDup ∧ c ∈ pf then pks.length else 1)).sum := by
      unfold valColsOf
      rw [List.length_flatMap]
      refine congrArg List.sum (congrArg (fun f => List.map f (buildCols objects pf))
        (funext (fun c => ?_)))
      by_cases hc : onDup ∧ c ∈ pf
      · simp [colArgSlots, hc]
      · simp [colArgSlots, hc]
    rw [hflat, List.length_flatMap]
    have hmap : List.map (List.length ∘ fun obj : Record =>
        (valColsOf onDup pks pf (buildCols objects pf)).map
          (fun c => (obj.lookup c).getD GoValue.vnull)) objects =
        List.map (fun _ : Record => (valColsOf onDup pks pf (buildCols objects pf)).length)
          objects :=
      congrArg (fun f => List.map f objects) (funext (fun obj => List.length_map _ _))
    rw [hmap, sum_map_const, hvc]

/-- Witness for `argument_list_shape` on the concrete batch `c9batch`. -/
theorem argument_list_shape_witness :
    ([GoValue.vint 1, GoValue.vint 2, GoValue.vint 3, GoValue.vnull] : List GoValue) =
      c9batch.flatMap (fun obj =>
        (valColsOf false [] [] (buildCols c9batch [])).map
          (fun c => (obj.lookup c).getD GoValue.vnull))
    ∧ ([GoValue.vint 1, GoValue.vint 2, GoValue.vint 3, GoValue.vnull] : List GoValue).length =
        c9batch.length * ((buildCols c9batch []).map
          (fun c => if (false : Bool) ∧ c ∈ ([] : List String) then ([] : List String).length
            else 1)).sum :=
  argument_list_shape c9batch "t" false [] [] "INSERT INTO t(a,b) VALUES(?,?),(?,?)"
    [GoValue.vint 1, GoValue.vint 2, GoValue.vint 3, GoValue.vnull] rfl

/-- Membership in the modelled sorted column union is membership in some
record's key set. -/
theorem mem_sortedColumns (objects : List Record) (c : String) :
    c ∈ sortedColumns objects ↔ c ∈ allKeys objects := by
  unfold sortedColumns
  rw [(List.perm_insertionSort StrLe _).mem_iff, List.mem_dedup]

/-- The modelled sorted column union has no duplicates. -/
theorem sortedColumns_nodup (objects : List Record) : (sortedColumns objects).Nodup :=
  ((List.perm_insertionSort StrLe _).nodup_iff).mpr (List.nodup_dedup _)

/-- The modelled sorted column union only depends on the batch up to
permutation of its records. -/
theorem sortedColumns_perm_congr (objects objects2 : List Record)
    (hp : objects.Perm objects2) : sortedColumns objects2 = sortedColumns objects := by
  unfold sortedColumns
  refine List.eq_of_perm_of_sorted ?_ (List.sorted_insertionSort StrLe _)
    (List.sorted_insertionSort StrLe _)
  have hk : (allKeys objects2).Perm (allKeys objects) := by
    unfold allKeys
    exact (hp.symm).flatMap_right recordKeys
  exact ((List.perm_insertionSort StrLe _).trans hk.dedup).trans
    (List.perm_insertionSort StrLe _).symm

/-- C6 amended: the compiled column list is the lexicographically sorted
sequence of the distinct names in (union of record keys) ∪
preservedFields provided the preserved names not already among the
batch's keys are pairwise distinct — duplicates in `preservedFields`
already present as keys are collapsed, but a duplicated preserved name
absent from the batch appears once per occurrence (see the
counterexample).  Under that proviso the list is duplicate-free, sorted,
equals the spec's set-like ColumnSet, contains exactly the union's
names, is independent of the order of records in the batch, and —
being a pure function — is identical across repeated runs on the same
input. -/
theorem buildCols_sorted_distinct_union (objects : List Record) (P : List String)
    (h : (P.filter (fun p => ! decide (p ∈ sortedColumns objects))).Nodup) :
    buildCols objects P = specColumnSet objects P
    ∧ (buildCols objects P).Nodup
    ∧ List.Sorted StrLe (buildCols objects P)
    ∧ (∀ c, c ∈ buildCols objects P ↔ c ∈ allKeys objects ∨ c ∈ P)
    ∧ (∀ objects2, objects.Perm objects2 → buildCols objects2 P = buildCols objects P) := by
  have hperm : (buildCols objects P).Perm
      (sortedColumns objects ++
        P.filter (fun p => ! decide (p ∈ sortedColumns objects))) :=
    List.perm_insertionSort StrLe _
  have hdisj : (sortedColumns objects).Disjoint
      (P.filter (fun p => ! decide (p ∈ sortedColumns objects))) := by
    rw [List.disjoint_left]
    intro a ha hf
    rw [List.mem_filter] at hf
    simp only [Bool.not_eq_true', decide_eq_false_iff_not] at hf
    exact hf.2 ha
  have hLnodup : (sortedColumns objects ++
      P.filter (fun p => ! decide (p ∈ sortedColumns objects))).Nodup :=
    List.Nodup.append (sortedColumns_nodup objects) h hdisj
  have hmemL : ∀ c, c ∈ sortedColumns objects ++
      P.filter (fun p => ! decide (p ∈ sortedColumns objects)) ↔
      c ∈ allKeys objects ∨ c ∈ P := by
    intro c
    rw [List.mem_append, List.mem_filter]
    simp only [Bool.not_eq_true', decide_eq_false_iff_not, mem_sortedColumns]
    by_cases hc : c ∈ allKeys objects
    · simp [hc]
    · simp [hc]
  have hsorted : List.Sorted StrLe (buildCols objects P) :=
    List.sorted_insertionSort StrLe _
  have hnodup : (buildCols objects P).Nodup := hperm.nodup_iff.mpr hLnodup
  have hmem : ∀ c, c ∈ buildCols objects P ↔ c ∈ allKeys objects ∨ c ∈ P :=
    fun c => (hperm.mem_iff).trans (hmemL c)
  refine ⟨?_, hnodup, hsorted, hmem, ?_⟩
  · have hds : ((allKeys objects ++ P).dedup).Nodup := List.nodup_dedup _
    have hpm : (sortedColumns objects ++
        P.filter (fun p => ! decide (p ∈ sortedColumns objects))).Perm
        ((allKeys objects ++ P).dedup) := by
      rw [List.perm_ext_iff_of_nodup hLnodup hds]
      intro a
      rw [hmemL a, List.mem_dedup, List.mem_append]
    exact List.eq_of_perm_of_sorted
      (hperm.trans (hpm.trans (List.perm_insertionSort StrLe _).symm))
      hsorted (List.sorted_insertionSort StrLe _)
  · intro objects2 hp
    unfold buildCols
    rw [sortedColumns_perm_congr objects objects2 hp]

/-- Witness for `buildCols_sorted_distinct_union` at a concrete input
with distinct preserved names. -/
theorem buildCols_sorted_distinct_union_witness :
    (["x", "y"].filter
      (fun p => ! decide (p ∈ sortedColumns [[("a", GoValue.vint 1)]]))).Nodup
    ∧ buildCols [[("a", GoValue.vint 1)]] ["x", "y"] =
        specColumnSet [[("a", GoValue.vint 1)]] ["x", "y"] :=
  ⟨by decide,
   (buildCols_sorted_distinct_union [[("a", GoValue.vint 1)]] ["x", "y"] (by decide)).1⟩
